import Mathlib

/-!
# Verification of the elide-cap-table computation engine

Shallow embedding of the cap-table computation engine of the repository:
the ownership / valuation calculator and the SAFE conversion engine of
`public/scenario-manager.js`, the statistics helpers of `public/app.js`,
and the CSV-import round-grouping loop of `public/csv-handler.js`.

JavaScript numbers are embedded as exact rationals (`ℚ`); the one place a
claim is specifically about IEEE division by zero (`dilutionPercent`) uses
an explicit `JSNum` type with a `nan` constructor.  Optional JS fields are
`Option` values, and JS truthiness of a numeric field (`undefined` and `0`
are falsy) is the `truthyQ` test below.
-/

set_option autoImplicit false

namespace CapTableV

/-- JS truthiness of an optional numeric field: `undefined`/absent and `0`
are falsy, every other number is truthy. -/
def truthyQ : Option ℚ → Bool
  | none => false
  | some v => v != 0

/-- Model of `Math.round` in JavaScript: rounds half toward positive infinity,
`Math.round(x) = ⌊x + 1/2⌋`. -/
def jsRound (x : ℚ) : ℤ := ⌊x + 1/2⌋

/-- One holder's stake within a round (`allocation` objects of the source).
`convertedFrom`, `originalShares` and `conversionPrice` are the audit
fields added by `convertSAFEs`. -/
structure Allocation where
  id : String
  holderName : String
  shares : ℚ
  investmentAmount : Option ℚ
  allocType : String
  vestingSchedule : Option String
  notes : Option String
  convertedFrom : Option String
  originalShares : Option ℚ
  conversionPrice : Option ℚ
deriving DecidableEq

/-- A financing round (`round` objects of the source).  `type` is one of
`"priced"`, `"safe"`, `"equity-pool"` (kept as a string, as in the JS).
`converted` models the JS truthiness of the `converted` flag. -/
structure Round where
  id : String
  name : String
  type : String
  pricePerShare : Option ℚ
  moneyRaised : Option ℚ
  valuationCap : Option ℚ
  investmentAmount : Option ℚ
  authorizedShares : Option ℚ
  date : String
  color : String
  converted : Bool
  conversionPrice : Option ℚ
  allocations : List Allocation
deriving DecidableEq

/-- The root aggregate. -/
structure CapTable where
  companyName : String
  rounds : List Round
deriving DecidableEq

/-- Source expression `round.allocations.reduce((s, a) => s + a.shares, 0)` — the total
share count of one round's allocations. -/
def Round.allocShares (r : Round) : ℚ := (r.allocations.map Allocation.shares).sum

/-- Source expression `capTable.rounds.reduce((sum, r) => sum + r.allocations.reduce((s, a) => s + a.shares, 0), 0)`
— the inline reduce used by `calculateOwnership`, `calculateDilution`
(scenario-manager.js) and `updateStats` / `getEffectivePricePerShare`
(app.js): the sum of allocation shares over ALL rounds. -/
def totalSharesAll (ct : CapTable) : ℚ := (ct.rounds.map Round.allocShares).sum

/-! ## SAFE conversion engine (`convertSAFEs`, scenario-manager.js 190-254) -/

/-- scenario-manager.js 203-205: shares of rounds passing
`(r.type !== 'safe' || r.converted) && r.type !== 'equity-pool'`.
Note that converted SAFE rounds DO count here. -/
def nonPoolIssuedExclSafes (ct : CapTable) : ℚ :=
  ((ct.rounds.filter (fun r => (!(r.type == "safe") || r.converted) &&
      !(r.type == "equity-pool"))).map Round.allocShares).sum

/-- scenario-manager.js 206-208: summed `authorizedShares || 0` of the
`equity-pool` rounds. -/
def authorizedPool (ct : CapTable) : ℚ :=
  ((ct.rounds.filter (fun r => r.type == "equity-pool")).map
    (fun r => r.authorizedShares.getD 0)).sum

/-- scenario-manager.js 209: `Math.max(nonPoolIssuedExclSafes + authorizedPool, 1)`. -/
def preMoneyCapShares (ct : CapTable) : ℚ :=
  max (nonPoolIssuedExclSafes ct + authorizedPool ct) 1

/-- The guard of the forEach body (scenario-manager.js 195): rounds with
`round.type !== 'safe' || !round.valuationCap` are pushed unchanged; all
others (any SAFE with a truthy cap, converted or not) are rewritten. -/
def safeConverts (r : Round) : Bool := r.type == "safe" && truthyQ r.valuationCap

/-- scenario-manager.js 210-211:
`conversionPrice = Math.min(pricePerShare, round.valuationCap / preMoneyCapShares)`. -/
def convRoundPrice (ct : CapTable) (pricePerShare : ℚ) (r : Round) : ℚ :=
  min pricePerShare (r.valuationCap.getD 0 / preMoneyCapShares ct)

/-- scenario-manager.js 215-220: the investment amount used for an
allocation — the recorded one when truthy (a recorded `0` is falsy!),
otherwise the back-calculated `alloc.shares * (round.valuationCap / preMoneyCapShares)`. -/
def allocInvestment (ct : CapTable) (r : Round) (a : Allocation) : ℚ :=
  if truthyQ a.investmentAmount then a.investmentAmount.getD 0
  else a.shares * (r.valuationCap.getD 0 / preMoneyCapShares ct)

/-- One conversion record (scenario-manager.js 224-232). -/
structure Conversion where
  holderName : String
  originalShares : ℚ
  convertedShares : ℚ
  investmentAmount : ℚ
  conversionPrice : ℚ
  discount : ℚ
  roundName : String
deriving DecidableEq

/-- scenario-manager.js 234-241: the rewritten allocation of a converting
SAFE round. -/
def convertAllocation (ct : CapTable) (pricePerShare : ℚ) (r : Round)
    (a : Allocation) : Allocation :=
  { a with
    shares := (jsRound (allocInvestment ct r a / convRoundPrice ct pricePerShare r) : ℚ)
    convertedFrom := some "SAFE"
    originalShares := some a.shares
    conversionPrice := some (convRoundPrice ct pricePerShare r) }

/-- scenario-manager.js 224-232: the conversion record pushed for one
allocation of a converting SAFE round. -/
def allocConversion (ct : CapTable) (pricePerShare : ℚ) (r : Round)
    (a : Allocation) : Conversion :=
  { holderName := a.holderName
    originalShares := a.shares
    convertedShares := (jsRound (allocInvestment ct r a / convRoundPrice ct pricePerShare r) : ℚ)
    investmentAmount := allocInvestment ct r a
    conversionPrice := convRoundPrice ct pricePerShare r
    discount := max 0 (1 - convRoundPrice ct pricePerShare r / pricePerShare) * 100
    roundName := r.name }

/-- The round pushed onto `updatedRounds` (scenario-manager.js 195-198 and
244-250): unchanged when the guard fails, otherwise rewritten with
converted allocations, `converted: true` and the frozen `conversionPrice`. -/
def convertRound (ct : CapTable) (pricePerShare : ℚ) (r : Round) : Round :=
  if safeConverts r then
    { r with
      allocations := r.allocations.map (convertAllocation ct pricePerShare r)
      converted := true
      conversionPrice := some (convRoundPrice ct pricePerShare r) }
  else r

/-- The conversion records pushed for one round: none when the guard
fails, one per allocation (in order) otherwise. -/
def roundConversions (ct : CapTable) (pricePerShare : ℚ) (r : Round) : List Conversion :=
  if safeConverts r then r.allocations.map (allocConversion ct pricePerShare r) else []

/-- Result of `convertSAFEs`. -/
structure ConvertResult where
  conversions : List Conversion
  updatedRounds : List Round
deriving DecidableEq

/-- Embedding of `convertSAFEs(capTable, postMoneyValuation, pricePerShare)`
(scenario-manager.js 190-254).  The source's `forEach` pushing onto two
arrays is embedded as a `map` (one output round per input round, in
order) and a flat map (records pushed per allocation, per round, in
order).  `postMoneyValuation` is a parameter the source never reads. -/
def convertSAFEs (ct : CapTable) (postMoneyValuation pricePerShare : ℚ) : ConvertResult :=
  { conversions := ct.rounds.flatMap (roundConversions ct pricePerShare)
    updatedRounds := ct.rounds.map (convertRound ct pricePerShare) }

/-! ## Ownership calculator (`calculateOwnership`, scenario-manager.js 151-166) -/

/-- A JS `Map` with string keys and rational values, modelled as its
insertion-ordered key list together with a total lookup function
(`map.get(k) || 0` — absent keys read as `0`). -/
structure QMap where
  keys : List String
  get : String → ℚ

/-- The empty `new Map()`. -/
def QMap.empty : QMap := ⟨[], fun _ => 0⟩

/-- Model of `ownership.set(k, (ownership.get(k) || 0) + v)` — a `Map.set` that adds
`v` to the current value of `k`, appending `k` to the key list when new. -/
def QMap.setAdd (m : QMap) (k : String) (v : ℚ) : QMap :=
  { keys := if m.keys.contains k then m.keys else m.keys ++ [k]
    get := fun h => if h = k then m.get k + v else m.get h }

/-- Embedding of `calculateOwnership(capTable)` (scenario-manager.js 151-166): the
denominator is `totalSharesAll` — the sum over ALL rounds, unconverted
SAFE rounds included — and each allocation adds
`(alloc.shares / totalShares) * 100` to its holder's entry. -/
def calculateOwnership (ct : CapTable) : QMap :=
  let totalShares := totalSharesAll ct
  ct.rounds.foldl
    (fun own r =>
      r.allocations.foldl
        (fun own a => own.setAdd a.holderName (a.shares / totalShares * 100)) own)
    QMap.empty

/-! ## Valuation and dilution (`calculateValuation` / `calculateDilution`,
scenario-manager.js 175-181 and 263-297) -/

/-- Result of `calculateValuation`. -/
structure Valuation where
  preMoney : ℚ
  postMoney : ℚ
  newShares : ℚ
deriving DecidableEq

/-- Embedding of `calculateValuation(pricePerShare, sharesBeforeRound, moneyRaised)`
(scenario-manager.js 175-181). -/
def calculateValuation (pricePerShare sharesBeforeRound moneyRaised : ℚ) : Valuation :=
  let preMoney := pricePerShare * sharesBeforeRound
  let newShares := moneyRaised / pricePerShare
  let postMoney := preMoney + moneyRaised
  { preMoney := preMoney, postMoney := postMoney, newShares := newShares }

/-- A JavaScript number that may be `NaN` or an infinity — used exactly
where a claim is about IEEE division by zero. -/
inductive JSNum where
  | nan : JSNum
  | posInf : JSNum
  | negInf : JSNum
  | num : ℚ → JSNum
deriving DecidableEq

/-- JS division including the zero-denominator cases:
`0/0 = NaN`, `x/0 = ±Infinity` for `x ≠ 0`. -/
def jsDiv (x y : ℚ) : JSNum :=
  if y = 0 then (if x = 0 then .nan else if 0 < x then .posInf else .negInf)
  else .num (x / y)

/-- Multiplication of a JS number by the positive literal `100`
(`NaN * 100 = NaN`, `±Infinity * 100 = ±Infinity`). -/
def JSNum.times100 : JSNum → JSNum
  | .nan => .nan
  | .posInf => .posInf
  | .negInf => .negInf
  | .num q => .num (q * 100)

/-- One entry of the `dilutionImpact` map (scenario-manager.js 279-284).
`dilutionPercent` is `(dilutionPct / currentPct) * 100` with no guard on
`currentPct = 0`, hence a `JSNum`. -/
structure DilutionEntry where
  currentOwnership : ℚ
  postMoneyOwnership : ℚ
  dilution : ℚ
  dilutionPercent : JSNum
deriving DecidableEq

/-- Result of `calculateDilution`.  The `dilutionImpact` JS `Map` is
modelled as its key list (the keys of `currentOwnership`, which the
source iterates) plus a total entry function. -/
structure DilutionResult where
  currentTotalShares : ℚ
  newShares : ℚ
  postMoneyShares : ℚ
  preMoney : ℚ
  postMoney : ℚ
  impactKeys : List String
  dilutionImpact : String → DilutionEntry

/-- Embedding of `calculateDilution(capTable, moneyRaised, pricePerShare)`
(scenario-manager.js 263-297). -/
def calculateDilution (ct : CapTable) (moneyRaised pricePerShare : ℚ) : DilutionResult :=
  let currentOwnership := calculateOwnership ct
  let currentTotalShares := totalSharesAll ct
  let newShares := moneyRaised / pricePerShare
  let postMoneyShares := currentTotalShares + newShares
  let impact := fun holder =>
    let currentPct := currentOwnership.get holder
    let currentShares := (currentPct / 100) * currentTotalShares
    let postMoneyPct := (currentShares / postMoneyShares) * 100
    let dilutionPct := currentPct - postMoneyPct
    { currentOwnership := currentPct
      postMoneyOwnership := postMoneyPct
      dilution := dilutionPct
      dilutionPercent := (jsDiv dilutionPct currentPct).times100 : DilutionEntry }
  let valuation := calculateValuation pricePerShare currentTotalShares moneyRaised
  { currentTotalShares := currentTotalShares
    newShares := newShares
    postMoneyShares := postMoneyShares
    preMoney := valuation.preMoney
    postMoney := valuation.postMoney
    impactKeys := currentOwnership.keys
    dilutionImpact := impact }

/-! ## Statistics helpers (app.js 404-461) -/

/-- app.js 411: `capTable.rounds.filter(r => r.type === 'priced' && r.pricePerShare)`. -/
def pricedRoundsOf (ct : CapTable) : List Round :=
  ct.rounds.filter (fun r => r.type == "priced" && truthyQ r.pricePerShare)

/-- app.js 418: `capTable.rounds.filter(r => r.type === 'safe' && r.valuationCap)`. -/
def safeCapRoundsOf (ct : CapTable) : List Round :=
  ct.rounds.filter (fun r => r.type == "safe" && truthyQ r.valuationCap)

/-- Embedding of `getEffectivePricePerShare()` (app.js 404-426).  The priced branch
takes `pricedRounds[pricedRounds.length - 1]` — the last priced round in
ARRAY ORDER (rounds are never sorted by date anywhere in the source).
The fallback takes `Math.max` of the SAFE caps over `totalIssued`, the
sum of allocation shares over all rounds. -/
def getEffectivePricePerShare (ct : CapTable) : ℚ :=
  let totalIssued := totalSharesAll ct
  match (pricedRoundsOf ct).getLast? with
  | some lastPricedRound => lastPricedRound.pricePerShare.getD 0
  | none =>
    match (safeCapRoundsOf ct).map (fun r => r.valuationCap.getD 0) with
    | [] => 0
    | c :: cs => if 0 < totalIssued then cs.foldl max c / totalIssued else 0

/-- Embedding of `calculateFullyDilutedShares()` (app.js 434-454): pools count their
full `authorizedShares || 0`; SAFE rounds and all other rounds count
their current allocation shares. -/
def calculateFullyDilutedShares (ct : CapTable) : ℚ :=
  (ct.rounds.map (fun round =>
    if round.type == "equity-pool" then round.authorizedShares.getD 0
    else if round.type == "safe" then round.allocShares
    else round.allocShares)).sum

/-! ## CSV import round grouping (`parseSingleScenario`, csv-handler.js 260-361)

One parsed data row of the import table, after the 15-cell destructuring
of csv-handler.js 305-321.  Cells are raw strings; JS string truthiness
is non-emptiness.  Numeric parsing (`parseFloat` / `parseInt`) and the
randomized ids (`Date.now()` plus `Math.random()`) of the created
round/allocation objects play no role in the grouping claim and are not
modelled: fields are kept as the raw cell strings and ids are omitted. -/
structure CsvRow where
  roundName : String
  roundType : String
  pricePerShare : String
  moneyRaised : String
  valuationCap : String
  investmentAmount : String
  authorizedShares : String
  date : String
  color : String
  holderName : String
  shares : String
  allocationInvestmentAmount : String
  allocType : String
  vestingSchedule : String
  notes : String
deriving DecidableEq

/-- The allocation object pushed at csv-handler.js 345-353 (raw cell
strings; randomized id not modelled). -/
structure ImportedAllocation where
  holderName : String
  shares : String
  investmentAmount : String
  allocType : String
  vestingSchedule : String
  notes : String
deriving DecidableEq

/-- The round bucket created at csv-handler.js 327-339 (raw cell strings;
randomized id not modelled). -/
structure ImportedRound where
  name : String
  roundType : String
  pricePerShare : String
  moneyRaised : String
  valuationCap : String
  investmentAmount : String
  authorizedShares : String
  date : String
  color : String
  allocations : List ImportedAllocation
deriving DecidableEq

/-- csv-handler.js 345-353. -/
def allocationFromRow (row : CsvRow) : ImportedAllocation :=
  { holderName := row.holderName
    shares := row.shares
    investmentAmount := row.allocationInvestmentAmount
    allocType := row.allocType
    vestingSchedule := row.vestingSchedule
    notes := row.notes }

/-- csv-handler.js 327-339: the fresh bucket for a first-encountered
round name, with an empty allocation list. -/
def roundFromRow (row : CsvRow) : ImportedRound :=
  { name := row.roundName
    roundType := row.roundType
    pricePerShare := row.pricePerShare
    moneyRaised := row.moneyRaised
    valuationCap := row.valuationCap
    investmentAmount := row.investmentAmount
    authorizedShares := row.authorizedShares
    date := row.date
    color := row.color
    allocations := [] }

/-- csv-handler.js 326-340: `if (!roundsMap.has(roundName)) roundsMap.set(roundName, {...})`
— create the bucket keyed by the round name when absent (appended at the
end: JS `Map` iterates in insertion order). -/
def importEnsureBucket (roundsMap : List ImportedRound) (row : CsvRow) : List ImportedRound :=
  if roundsMap.any (fun r => r.name == row.roundName) then roundsMap
  else roundsMap ++ [roundFromRow row]

/-- csv-handler.js 343-354: `if (holderName && shares) roundsMap.get(roundName).allocations.push({...})`
— push the allocation into the bucket with the row's round name. -/
def importPushAlloc (roundsMap : List ImportedRound) (row : CsvRow) : List ImportedRound :=
  if row.holderName ≠ "" ∧ row.shares ≠ "" then
    roundsMap.map (fun r =>
      if r.name = row.roundName then
        { r with allocations := r.allocations ++ [allocationFromRow row] }
      else r)
  else roundsMap

/-- The body of the data-row loop (csv-handler.js 290-355) for one row:
skip when `roundName` is falsy (`if (!roundName) continue`), else ensure
the bucket exists, then conditionally push the allocation.  String
truthiness is non-emptiness. -/
def importStep (roundsMap : List ImportedRound) (row : CsvRow) : List ImportedRound :=
  if row.roundName = "" then roundsMap
  else importPushAlloc (importEnsureBucket roundsMap row) row

/-- The data-row loop of `parseSingleScenario` (csv-handler.js 288-360):
fold over the parsed data rows starting from the empty map, returning
`Array.from(roundsMap.values())` — the buckets in insertion order. -/
def importRows (rows : List CsvRow) : List ImportedRound :=
  rows.foldl importStep []

/-! ## Definitions taken from the claims' words (for refutation only)

The next three definitions follow the CLAIMS' wording, not the source;
they exist to be compared with the source-derived functions above. -/

/-- The capitalization base as the claims word it: allocation shares of
all non-SAFE, non-equity-pool rounds (ALL SAFE rounds excluded, converted
or not) plus authorized pool shares, floored at 1. -/
def claimedCapitalizationBase (ct : CapTable) : ℚ :=
  max (((ct.rounds.filter (fun r => !(r.type == "safe") && !(r.type == "equity-pool"))).map
    Round.allocShares).sum + authorizedPool ct) 1

/-- Definition of `totalIssuedShares` as the claims word it: allocation shares of every
round EXCEPT unconverted SAFE rounds. -/
def claimedTotalIssuedShares (ct : CapTable) : ℚ :=
  ((ct.rounds.filter (fun r => !(r.type == "safe" && !r.converted))).map
    Round.allocShares).sum

/-- The priced round with the maximal date (ISO date strings compare
chronologically as character-wise lexicographic order, taken here on the
underlying character lists; on a tie the earlier round wins — the claims
do not specify a tie-break and the refutation input has distinct
dates). -/
def mostRecentlyDated : List Round → Option Round
  | [] => none
  | r :: rs =>
    match mostRecentlyDated rs with
    | none => some r
    | some b => if r.date.data < b.date.data then some b else some r

/-- Definition of `effectivePricePerShare` as claim C6 words it: the price of the most
recently DATED priced round when one exists; else the highest SAFE cap
over `totalIssuedShares` (0 when that is 0); else 0. -/
def claimedEffectivePricePerShare (ct : CapTable) : ℚ :=
  match mostRecentlyDated (pricedRoundsOf ct) with
  | some r => r.pricePerShare.getD 0
  | none =>
    match (safeCapRoundsOf ct).map (fun r => r.valuationCap.getD 0) with
    | [] => 0
    | c :: cs =>
      if claimedTotalIssuedShares ct = 0 then 0
      else cs.foldl max c / claimedTotalIssuedShares ct

/-! ## Concrete inputs for refutations and witnesses -/

/-- An allocation with only the fields every input allocation has. -/
def mkAlloc (holder : String) (shares : ℚ) (inv : Option ℚ) : Allocation :=
  { id := ""
    holderName := holder
    shares := shares
    investmentAmount := inv
    allocType := "common"
    vestingSchedule := none
    notes := none
    convertedFrom := none
    originalShares := none
    conversionPrice := none }

/-- A round with every optional field absent, to be updated per example. -/
def baseRound : Round :=
  { id := ""
    name := ""
    type := "priced"
    pricePerShare := none
    moneyRaised := none
    valuationCap := none
    investmentAmount := none
    authorizedShares := none
    date := ""
    color := ""
    converted := false
    conversionPrice := none
    allocations := [] }

/-- The spec's own example scenario, before any conversion: one common
round of 10,000,000 shares and one SAFE round (cap $5,000,000, one
$500,000 investment, no shares yet). -/
def ctC1start : CapTable := ⟨"Demo", [
  { baseRound with
      name := "Common"
      allocations := [mkAlloc "Alice" 10000000 none] },
  { baseRound with
      name := "SAFE 2023"
      type := "safe"
      valuationCap := some 5000000
      allocations := [mkAlloc "Bob" 0 (some 500000)] }]⟩

/-- The example scenario after one `convertSAFEs` pass at $1.00/share:
the SAFE round is now `converted` with 1,000,000 shares at price 1/2. -/
def ctC1 : CapTable := ⟨"Demo", (convertSAFEs ctC1start 11000000 1).updatedRounds⟩

/-- Input for claim C2: a cap table holding both a converted SAFE round
(1,000,000 issued shares) and an unconverted one. -/
def ctC2 : CapTable := ⟨"Demo", [
  { baseRound with
      name := "Common"
      allocations := [mkAlloc "Alice" 10000000 none] },
  { baseRound with
      name := "SAFE A"
      type := "safe"
      valuationCap := some 4000000
      converted := true
      allocations := [mkAlloc "Carol" 1000000 none] },
  { baseRound with
      name := "SAFE B"
      type := "safe"
      valuationCap := some 5000000
      allocations := [mkAlloc "Bob" 0 (some 500000)] }]⟩

/-- The SAFE round of `ctC3`: its allocation has an explicitly recorded
investment amount of 0 (representable input, e.g. a CSV cell `"0"`). -/
def roundSAFEZ : Round :=
  { baseRound with
      name := "SAFE Z"
      type := "safe"
      valuationCap := some 200
      allocations := [mkAlloc "Bob" 100 (some 0)] }

/-- Input for claim C3. -/
def ctC3 : CapTable := ⟨"Demo", [
  { baseRound with
      name := "Common"
      allocations := [mkAlloc "Alice" 100 none] },
  roundSAFEZ]⟩

/-- Input for claim C4's witness: a pool round with headroom. -/
def ctC4 : CapTable := ⟨"Demo", [
  { baseRound with
      name := "Common"
      allocations := [mkAlloc "Alice" 100 none] },
  { baseRound with
      name := "Pool"
      type := "equity-pool"
      authorizedShares := some 500
      allocations := [mkAlloc "Emp" 50 none] }]⟩

/-- Input for claim C5: an unconverted SAFE round carrying 100 shares
next to a common round of 100 shares. -/
def ctC5 : CapTable := ⟨"Demo", [
  { baseRound with
      name := "Common"
      allocations := [mkAlloc "Alice" 100 none] },
  { baseRound with
      name := "SAFE"
      type := "safe"
      valuationCap := some 1000000
      allocations := [mkAlloc "Bob" 100 none] }]⟩

/-- The later-dated priced round of `ctC6`, first in the rounds list. -/
def roundSeed : Round :=
  { baseRound with
      name := "Seed"
      pricePerShare := some 2
      date := "2024-01-01"
      allocations := [mkAlloc "Alice" 100 none] }

/-- The earlier-dated priced round of `ctC6`, last in the rounds list. -/
def roundAngel : Round :=
  { baseRound with
      name := "Angel"
      pricePerShare := some 3
      date := "2020-01-01"
      allocations := [mkAlloc "Bob" 50 none] }

/-- Input for claim C6: two priced rounds stored out of date order — the
most recently dated one (price 2) comes first in the list. -/
def ctC6 : CapTable := ⟨"Demo", [roundSeed, roundAngel]⟩

/-- Input for claim C7: one round with a 100-share holder and a holder
with 0 shares. -/
def ctC7 : CapTable := ⟨"Demo", [
  { baseRound with
      name := "Common"
      allocations := [mkAlloc "Alice" 100 none, mkAlloc "Bob" 0 none] }]⟩

/-- Input for claim C8: same shape as `ctC7` — a 0-share holder. -/
def ctC8 : CapTable := ⟨"Demo", [
  { baseRound with
      name := "Common"
      allocations := [mkAlloc "Alice" 100 none, mkAlloc "Bob" 0 none] }]⟩

/-- Input for claim C9's witness: two rows of round "Common" separated by
a row of round "Pool" — non-adjacent rows with the same round name. -/
def rowsC9 : List CsvRow :=
  [ ⟨"Common", "priced", "", "", "", "", "", "2020-01-01", "#111", "F1", "100", "", "common", "", ""⟩,
    ⟨"Pool", "equity-pool", "", "", "", "", "500", "2021-01-01", "#222", "E1", "50", "", "option", "", ""⟩,
    ⟨"Common", "priced", "", "", "", "", "", "2020-01-01", "#111", "F2", "200", "", "common", "", ""⟩ ]

/-- Input for claim C10's witness: a priced round, a pool round, a SAFE
round without a cap and a SAFE round with a cap. -/
def ctC10 : CapTable := ⟨"Demo", [
  { baseRound with
      name := "Common"
      allocations := [mkAlloc "Alice" 100 none] },
  { baseRound with
      name := "Pool"
      type := "equity-pool"
      authorizedShares := some 500 },
  { baseRound with
      name := "Capless SAFE"
      type := "safe"
      allocations := [mkAlloc "Carl" 10 none] },
  { baseRound with
      name := "SAFE"
      type := "safe"
      valuationCap := some 1000
      allocations := [mkAlloc "Dee" 0 (some 100)] }]⟩

/-! ## Helper lemmas -/

/-- Sum of a holder's shares across all rounds (holders merged by exact
string equality, as the source does). -/
def holderShares (ct : CapTable) (h : String) : ℚ :=
  (ct.rounds.map (fun r =>
    ((r.allocations.filter (fun a => a.holderName == h)).map Allocation.shares).sum)).sum

theorem qmap_setAdd_get (m : QMap) (k : String) (v : ℚ) (h : String) :
    (m.setAdd k v).get h = if h = k then m.get k + v else m.get h := rfl

theorem ownership_allocFold_get (t : ℚ) (h : String) (as : List Allocation) (m : QMap) :
    (as.foldl (fun own a => own.setAdd a.holderName (a.shares / t * 100)) m).get h
      = m.get h
        + ((as.filter (fun a => a.holderName == h)).map (fun a => a.shares / t * 100)).sum := by
  induction as generalizing m with
  | nil => simp
  | cons a as ih =>
    simp only [List.foldl_cons, List.filter_cons]
    rw [ih]
    by_cases hha : a.holderName = h
    · simp [hha, qmap_setAdd_get, add_assoc]
    · have hba : (a.holderName == h) = false := by simp [hha]
      have hne : ¬h = a.holderName := fun hh => hha hh.symm
      simp [hba, qmap_setAdd_get, hne]

theorem ownership_roundFold_get (t : ℚ) (h : String) (rs : List Round) (m : QMap) :
    (rs.foldl (fun own r =>
        r.allocations.foldl (fun own a => own.setAdd a.holderName (a.shares / t * 100)) own)
      m).get h
      = m.get h
        + (rs.map (fun r =>
            ((r.allocations.filter (fun a => a.holderName == h)).map
              (fun a => a.shares / t * 100)).sum)).sum := by
  induction rs generalizing m with
  | nil => simp
  | cons r rs ih =>
    simp only [List.foldl_cons, List.map_cons, List.sum_cons]
    rw [ih, ownership_allocFold_get, add_assoc]

theorem sum_map_div_mul (l : List ℚ) (t : ℚ) :
    (l.map (fun x => x / t * 100)).sum = l.sum / t * 100 := by
  induction l with
  | nil => simp
  | cons x xs ih => simp [ih, add_div, add_mul]

/-- Closed form of the ownership map lookup: every holder reads as their
total shares over the all-rounds total, scaled to percent (and an absent
holder reads as 0 on both sides). -/
theorem ownership_get_eq (ct : CapTable) (h : String) :
    (calculateOwnership ct).get h = holderShares ct h / totalSharesAll ct * 100 := by
  unfold calculateOwnership holderShares
  rw [ownership_roundFold_get]
  simp only [QMap.empty, zero_add]
  rw [← sum_map_div_mul]
  congr 1
  rw [List.map_map]
  congr 1
  funext r
  simp only [Function.comp]
  rw [← sum_map_div_mul, List.map_map]
  rfl

theorem foldl_max_mem (cs : List ℚ) (c : ℚ) : cs.foldl max c ∈ c :: cs := by
  induction cs generalizing c with
  | nil => simp
  | cons d ds ih =>
    have hmem := ih (max c d)
    rw [List.foldl_cons]
    rcases List.mem_cons.mp hmem with hh | hh
    · rw [hh]
      rcases max_choice c d with he | he
      · rw [he]; exact List.mem_cons_self _ _
      · rw [he]; exact List.mem_cons_of_mem _ (List.mem_cons_self _ _)
    · exact List.mem_cons_of_mem _ (List.mem_cons_of_mem _ hh)

theorem le_foldl_max (cs : List ℚ) (c : ℚ) : ∀ x ∈ c :: cs, x ≤ cs.foldl max c := by
  induction cs generalizing c with
  | nil => simp
  | cons d ds ih =>
    intro x hx
    rcases List.mem_cons.mp hx with hh | hh
    · subst hh
      calc x ≤ max x d := le_max_left x d
        _ ≤ ds.foldl max (max x d) := ih (max x d) _ (List.mem_cons_self _ _)
        _ = (d :: ds).foldl max x := rfl
    · rcases List.mem_cons.mp hh with hh2 | hh2
      · subst hh2
        calc x ≤ max c x := le_max_right c x
          _ ≤ ds.foldl max (max c x) := ih (max c x) _ (List.mem_cons_self _ _)
          _ = (x :: ds).foldl max c := rfl
      · exact ih (max c d) x (List.mem_cons_of_mem _ hh2)

theorem totalSharesAll_nonneg (ct : CapTable)
    (hnn : ∀ r ∈ ct.rounds, ∀ a ∈ r.allocations, 0 ≤ a.shares) :
    0 ≤ totalSharesAll ct := by
  apply List.sum_nonneg
  intro x hx
  rcases List.mem_map.mp hx with ⟨r, hr, hrx⟩
  subst hrx
  apply List.sum_nonneg
  intro s hs
  rcases List.mem_map.mp hs with ⟨a, ha, has⟩
  subst has
  exact hnn r hr a ha

/-! ## Claim C1 -/

/-- C1: the claim says a round already marked `converted = true` is
skipped by `convertSAFEs`, so a second invocation with the same terms
leaves it unchanged.  The code has no such skip: on the spec's own
example, after the first conversion at $1.00/share the SAFE round is
`converted` with 1,000,000 shares at conversion price 1/2, yet a second
invocation with the same price rewrites it to 1,100,000 shares at price
5/11 (the converted round's own shares now enlarge the capitalization
base). -/
theorem c1_reconversion_changes_converted_round :
    (ctC1.rounds.map (fun r => (r.converted, r.conversionPrice, r.allocations.map Allocation.shares)))
      = [(false, none, [10000000]), (true, some (1/2 : ℚ), [1000000])]
  ∧ ((convertSAFEs ctC1 11000000 1).updatedRounds.map
        (fun r => (r.converted, r.conversionPrice, r.allocations.map Allocation.shares)))
      = [(false, none, [10000000]), (true, some (5/11 : ℚ), [1100000])] := by
  constructor <;>
  · simp [ctC1, ctC1start, convertSAFEs, convertRound, convertAllocation, safeConverts, truthyQ,
      convRoundPrice, allocInvestment, preMoneyCapShares, nonPoolIssuedExclSafes, authorizedPool,
      Round.allocShares, jsRound, baseRound, mkAlloc]
    norm_num

/-! ## Claim C2 -/

/-- C2 counterexample: in a table holding a converted SAFE round with
1,000,000 issued shares, the conversion price of the unconverted SAFE
(cap $5,000,000) is 5/11 — computed against a base of 11,000,000 that
INCLUDES the converted SAFE's shares — while the claim's base (non-SAFE,
non-pool rounds only) predicts min(1, 5000000/10000000) = 1/2. -/
theorem c2_base_excludes_converted_safes_refuted :
    ((convertSAFEs ctC2 11000000 1).updatedRounds.map Round.conversionPrice)
      = [none, some (4/11 : ℚ), some (5/11 : ℚ)]
  ∧ min (1 : ℚ) (5000000 / claimedCapitalizationBase ctC2) = 1/2
  ∧ ((5 : ℚ)/11) ≠ 1/2 := by
  refine ⟨?_, ?_, by norm_num⟩
  · simp [ctC2, convertSAFEs, convertRound, safeConverts, truthyQ,
      convRoundPrice, preMoneyCapShares, nonPoolIssuedExclSafes, authorizedPool,
      Round.allocShares, baseRound, mkAlloc]
    norm_num
  · simp [claimedCapitalizationBase, ctC2, authorizedPool, Round.allocShares, baseRound, mkAlloc]
    norm_num

/-- C2 (amended): for every unconverted SAFE round with positive
valuation cap `c`, the output round's conversion price is
`min(newRoundPrice, c / base)` where the base — floored at 1 — sums the
allocation shares of all rounds that are neither SAFE nor equity-pool,
PLUS the shares of already-converted SAFE rounds, plus the authorized
(not merely allocated) pool sizes. -/
theorem c2_conversion_price_formula (ct : CapTable) (pm price : ℚ) (i : ℕ)
    (hi : i < ct.rounds.length) (c : ℚ)
    (htype : ct.rounds[i].type = "safe")
    (hcap : ct.rounds[i].valuationCap = some c)
    (hpos : 0 < c) :
    ((convertSAFEs ct pm price).updatedRounds[i]?).map Round.conversionPrice
      = some (some (min price (c / max (nonPoolIssuedExclSafes ct + authorizedPool ct) 1))) := by
  have hsc : safeConverts ct.rounds[i] = true := by
    simp [safeConverts, htype, truthyQ, hcap]
    exact ne_of_gt hpos
  have hmap : (convertSAFEs ct pm price).updatedRounds
      = ct.rounds.map (convertRound ct price) := rfl
  rw [hmap, List.getElem?_map, List.getElem?_eq_getElem hi]
  simp [convertRound, hsc, convRoundPrice, hcap, preMoneyCapShares]

/-- C2 witness: the formula instantiated on `ctC2`'s unconverted SAFE. -/
theorem c2_conversion_price_witness :
    ((convertSAFEs ctC2 11000000 1).updatedRounds[2]?).map Round.conversionPrice
      = some (some (min 1 (5000000 / max (nonPoolIssuedExclSafes ctC2 + authorizedPool ctC2) 1))) :=
  c2_conversion_price_formula ctC2 11000000 1 2 (by simp [ctC2]) 5000000
    (by simp [ctC2, baseRound]) (by simp [ctC2, baseRound]) (by norm_num)

/-! ## Claim C3 -/

/-- C3 counterexample: Bob's SAFE allocation carries an explicitly
recorded investment amount of 0, so the claim predicts
`round(0 / conversionPrice) = 0` converted shares; the code treats the
recorded 0 as absent (JS falsy), back-calculates an implied investment
of 200 from the 100 shares, and emits 200 converted shares. -/
theorem c3_zero_investment_treated_as_absent :
    ((convertSAFEs ctC3 0 1).conversions.map
        (fun cv => (cv.holderName, cv.convertedShares, cv.conversionPrice)))
      = [("Bob", 200, 1)]
  ∧ (ctC3.rounds.map (fun r => r.allocations.map Allocation.investmentAmount))
      = [[none], [some 0]]
  ∧ jsRound ((0 : ℚ) / 1) = 0
  ∧ (200 : ℚ) ≠ ((0 : ℤ) : ℚ) := by
  refine ⟨?_, ?_, by norm_num [jsRound], by norm_num⟩
  · simp [ctC3, roundSAFEZ, convertSAFEs, roundConversions, allocConversion, safeConverts, truthyQ,
      convRoundPrice, allocInvestment, preMoneyCapShares, nonPoolIssuedExclSafes, authorizedPool,
      Round.allocShares, jsRound, baseRound, mkAlloc]
    norm_num
  · simp [ctC3, roundSAFEZ, baseRound, mkAlloc]

/-- C3 (amended): every emitted conversion record's `convertedShares` is
an integer, and for each allocation of a converting SAFE round the
record's investment amount is the recorded one when TRUTHY (a recorded 0
counts as absent), otherwise `shares * (cap / base)`, with
`convertedShares = round(investment / conversionPrice)`. -/
theorem c3_converted_shares_formula (ct : CapTable) (pm price : ℚ) :
    (∀ cv ∈ (convertSAFEs ct pm price).conversions, ∃ n : ℤ, cv.convertedShares = (n : ℚ))
  ∧ (∀ r ∈ ct.rounds, safeConverts r = true → ∀ a ∈ r.allocations,
      ∃ cv ∈ (convertSAFEs ct pm price).conversions,
        cv.holderName = a.holderName
        ∧ cv.investmentAmount
          = (if truthyQ a.investmentAmount then a.investmentAmount.getD 0
             else a.shares * (r.valuationCap.getD 0 / preMoneyCapShares ct))
        ∧ cv.convertedShares
          = (jsRound (cv.investmentAmount / convRoundPrice ct price r) : ℚ)) := by
  constructor
  · intro cv hcv
    rcases List.mem_flatMap.mp hcv with ⟨r, hr, hcvr⟩
    unfold roundConversions at hcvr
    by_cases hs : safeConverts r = true
    · rw [if_pos hs] at hcvr
      rcases List.mem_map.mp hcvr with ⟨a, ha, hcva⟩
      exact ⟨jsRound (allocInvestment ct r a / convRoundPrice ct price r), by rw [← hcva]; rfl⟩
    · rw [if_neg hs] at hcvr
      exact absurd hcvr (List.not_mem_nil cv)
  · intro r hr hs a ha
    refine ⟨allocConversion ct price r a, ?_, rfl, rfl, rfl⟩
    apply List.mem_flatMap.mpr
    refine ⟨r, hr, ?_⟩
    rw [roundConversions, if_pos hs]
    exact List.mem_map_of_mem _ ha

/-- C3 witness: the formula instantiated on `ctC3`'s SAFE round and its
single allocation. -/
theorem c3_converted_shares_witness :
    ∃ cv ∈ (convertSAFEs ctC3 0 1).conversions,
      cv.holderName = (mkAlloc "Bob" 100 (some 0)).holderName
      ∧ cv.investmentAmount
        = (if truthyQ (mkAlloc "Bob" 100 (some 0)).investmentAmount
           then (mkAlloc "Bob" 100 (some 0)).investmentAmount.getD 0
           else (mkAlloc "Bob" 100 (some 0)).shares
             * (roundSAFEZ.valuationCap.getD 0 / preMoneyCapShares ctC3))
      ∧ cv.convertedShares
        = (jsRound (cv.investmentAmount / convRoundPrice ctC3 1 roundSAFEZ) : ℚ) :=
  (c3_converted_shares_formula ctC3 0 1).2 roundSAFEZ (by simp [ctC3])
    (by simp [safeConverts, truthyQ, roundSAFEZ, baseRound])
    (mkAlloc "Bob" 100 (some 0)) (by simp [roundSAFEZ, baseRound])

/-! ## Claim C4 -/

/-- C4: on every cap table satisfying the data model's pool invariant
(an equity pool's authorized size bounds its allocated shares), the
fully-diluted count — pools at full authorized size, every other round
at its allocation shares — is at least the total issued count used by
`updateStats` (the sum of allocation shares over all rounds). -/
theorem c4_fully_diluted_ge_issued (ct : CapTable)
    (hpool : ∀ r ∈ ct.rounds, r.type = "equity-pool" →
      r.allocShares ≤ r.authorizedShares.getD 0) :
    totalSharesAll ct ≤ calculateFullyDilutedShares ct := by
  unfold totalSharesAll calculateFullyDilutedShares
  apply List.sum_le_sum
  intro r hr
  by_cases hp : (r.type == "equity-pool") = true
  · rw [if_pos hp]
    exact hpool r hr (by simpa using hp)
  · rw [if_neg hp, ite_self]

/-- C4 witness: the inequality on `ctC4` (pool authorized 500, allocated
50; common 100 shares): 150 ≤ 600. -/
theorem c4_fully_diluted_ge_issued_witness :
    totalSharesAll ctC4 ≤ calculateFullyDilutedShares ctC4 := by
  apply c4_fully_diluted_ge_issued ctC4
  intro r hr htype
  simp [ctC4] at hr
  rcases hr with rfl | rfl
  · simp [baseRound] at htype
  · norm_num [Round.allocShares, baseRound, mkAlloc]

/-! ## Claim C5 -/

/-- C5 counterexample: with a common round of 100 shares and an
unconverted SAFE round carrying 100 shares, the code reports Alice at
100/200·100 = 50%, while the claim's denominator (which excludes
unconverted SAFE rounds) predicts 100/100·100 = 100%. -/
theorem c5_denominator_includes_unconverted_safes :
    (calculateOwnership ctC5).get "Alice" = 50
  ∧ holderShares ctC5 "Alice" / claimedTotalIssuedShares ctC5 * 100 = 100
  ∧ (50 : ℚ) ≠ 100 := by
  refine ⟨?_, ?_, by norm_num⟩
  · simp [calculateOwnership, ctC5, baseRound, mkAlloc, totalSharesAll, Round.allocShares,
      QMap.setAdd, QMap.empty]
    norm_num
  · simp [holderShares, claimedTotalIssuedShares, ctC5, baseRound, mkAlloc, Round.allocShares]

/-- C5 (amended): every holder's ownership entry equals their summed
shares across all rounds divided by the all-rounds share total
(unconverted SAFE rounds INCLUDED in the denominator), scaled to
percent. -/
theorem c5_ownership_formula (ct : CapTable) (h : String) :
    (calculateOwnership ct).get h = holderShares ct h / totalSharesAll ct * 100 :=
  ownership_get_eq ct h

/-! ## Claim C8 -/

/-- C8: the claim says the `dilutionPercentOfStake` computation is
guarded against a zero `currentOwnership`.  It is not: for the 0-share
holder Bob the code computes `(0 - 0) / 0 * 100`, i.e. `0/0 = NaN`. -/
theorem c8_dilution_percent_nan_unguarded :
    ("Bob" ∈ (calculateDilution ctC8 100 1).impactKeys)
  ∧ ((calculateDilution ctC8 100 1).dilutionImpact "Bob").dilutionPercent = JSNum.nan := by
  constructor
  · simp [calculateDilution, calculateOwnership, ctC8, baseRound, mkAlloc, totalSharesAll,
      Round.allocShares, QMap.setAdd, QMap.empty]
  · simp [calculateDilution, calculateOwnership, ctC8, baseRound, mkAlloc, totalSharesAll,
      Round.allocShares, QMap.setAdd, QMap.empty, jsDiv, JSNum.times100, calculateValuation]

/-! ## Claim C6 -/

/-- C6 counterexample: `ctC6` stores its two priced rounds out of date
order; the code returns 3 (the LAST round in list order, dated
2020-01-01), while the claim's reading — the most recently dated priced
round, dated 2024-01-01 — predicts 2. -/
theorem c6_last_round_not_most_recently_dated :
    getEffectivePricePerShare ctC6 = 3
  ∧ claimedEffectivePricePerShare ctC6 = 2
  ∧ (3 : ℚ) ≠ 2 := by
  refine ⟨by decide, by decide, by norm_num⟩

/-- C6 (amended): when priced rounds with a truthy price exist, the
result is the price of the LAST one in list order (not the most recently
dated one); otherwise, when SAFE rounds with a cap exist, the result is
the highest such cap divided by the all-rounds share total (0 when that
total is not positive); otherwise 0. -/
theorem c6_effective_price_structure (ct : CapTable) :
    (∀ r, (pricedRoundsOf ct).getLast? = some r →
        getEffectivePricePerShare ct = r.pricePerShare.getD 0)
  ∧ (pricedRoundsOf ct = [] → safeCapRoundsOf ct ≠ [] →
      ∃ r ∈ safeCapRoundsOf ct,
        (∀ x ∈ safeCapRoundsOf ct, x.valuationCap.getD 0 ≤ r.valuationCap.getD 0)
        ∧ getEffectivePricePerShare ct =
            (if 0 < totalSharesAll ct
             then r.valuationCap.getD 0 / totalSharesAll ct else 0))
  ∧ (pricedRoundsOf ct = [] → safeCapRoundsOf ct = [] →
      getEffectivePricePerShare ct = 0) := by
  refine ⟨?_, ?_, ?_⟩
  · intro r hr
    simp [getEffectivePricePerShare, hr]
  · intro hpr hsafe
    have hlast : (pricedRoundsOf ct).getLast? = none := by
      rw [hpr]; rfl
    obtain ⟨r0, rs0, hcons⟩ : ∃ r0 rs0, safeCapRoundsOf ct = r0 :: rs0 := by
      cases hsc : safeCapRoundsOf ct with
      | nil => exact absurd hsc hsafe
      | cons a l => exact ⟨a, l, rfl⟩
    have hmem := foldl_max_mem (rs0.map (fun r => r.valuationCap.getD 0))
      (r0.valuationCap.getD 0)
    have hmem2 : (rs0.map (fun r => r.valuationCap.getD 0)).foldl max (r0.valuationCap.getD 0)
        ∈ (r0 :: rs0).map (fun r => r.valuationCap.getD 0) := by
      simpa using hmem
    rcases List.mem_map.mp hmem2 with ⟨rM, hrM, hM⟩
    refine ⟨rM, by rw [hcons]; exact hrM, ?_, ?_⟩
    · intro x hx
      rw [hM]
      apply le_foldl_max
      rw [hcons] at hx
      simpa using List.mem_map_of_mem (fun r => r.valuationCap.getD 0) hx
    · rw [hM]
      simp [getEffectivePricePerShare, hlast, hcons]
  · intro hpr hsafe
    have hlast : (pricedRoundsOf ct).getLast? = none := by
      rw [hpr]; rfl
    simp [getEffectivePricePerShare, hlast, hsafe]

/-- C6 witness: on `ctC6` the priced branch fires for the LAST round in
list order (`roundAngel`, price 3). -/
theorem c6_effective_price_witness :
    getEffectivePricePerShare ctC6 = roundAngel.pricePerShare.getD 0 :=
  (c6_effective_price_structure ctC6).1 roundAngel
    (by simp [pricedRoundsOf, truthyQ, ctC6, roundSeed, roundAngel, baseRound])

/-! ## Claim C7 -/

/-- C7 counterexample: with the claim's hypotheses satisfied
(price 1 > 0, moneyRaised 100 > 0, so newShares = 100 > 0), holder Bob —
present in the impact map with a 0-share allocation — has
postMoneyOwnership = currentOwnership = 0, not strictly less. -/
theorem c7_zero_ownership_holder_not_strictly_diluted :
    ((0 : ℚ) < 1 ∧ (0 : ℚ) < 100)
  ∧ (calculateDilution ctC7 100 1).newShares = 100
  ∧ "Bob" ∈ (calculateDilution ctC7 100 1).impactKeys
  ∧ ¬(((calculateDilution ctC7 100 1).dilutionImpact "Bob").postMoneyOwnership
      < ((calculateDilution ctC7 100 1).dilutionImpact "Bob").currentOwnership) := by
  refine ⟨⟨by norm_num, by norm_num⟩, ?_, ?_, ?_⟩
  · simp [calculateDilution, totalSharesAll, Round.allocShares, ctC7, baseRound, mkAlloc]
  · simp [calculateDilution, calculateOwnership, ctC7, baseRound, mkAlloc, totalSharesAll,
      Round.allocShares, QMap.setAdd, QMap.empty]
  · simp [calculateDilution, calculateOwnership, ctC7, baseRound, mkAlloc, totalSharesAll,
      Round.allocShares, QMap.setAdd, QMap.empty]

/-- C7 (amended): with a positive price and positive money raised, and
nonnegative share counts (data-model invariant), the projection reports
`postMoney = preMoney + moneyRaised` exactly, with
`preMoney = pricePerShare * currentTotalShares` and unrounded
`newShares = moneyRaised / pricePerShare`; and every holder with
POSITIVE current ownership is strictly diluted (a 0-ownership holder
stays at 0). -/
theorem c7_dilution_consistency (ct : CapTable) (moneyRaised pricePerShare : ℚ)
    (hp : 0 < pricePerShare) (hm : 0 < moneyRaised)
    (hnn : ∀ r ∈ ct.rounds, ∀ a ∈ r.allocations, 0 ≤ a.shares) :
    ((calculateDilution ct moneyRaised pricePerShare).preMoney
        = pricePerShare * (calculateDilution ct moneyRaised pricePerShare).currentTotalShares
      ∧ (calculateDilution ct moneyRaised pricePerShare).newShares
        = moneyRaised / pricePerShare
      ∧ (calculateDilution ct moneyRaised pricePerShare).postMoney
        = (calculateDilution ct moneyRaised pricePerShare).preMoney + moneyRaised)
  ∧ ∀ h, 0 < ((calculateDilution ct moneyRaised pricePerShare).dilutionImpact h).currentOwnership →
      ((calculateDilution ct moneyRaised pricePerShare).dilutionImpact h).postMoneyOwnership
        < ((calculateDilution ct moneyRaised pricePerShare).dilutionImpact h).currentOwnership := by
  refine ⟨⟨rfl, rfl, rfl⟩, ?_⟩
  intro h hpos
  have e1 : ((calculateDilution ct moneyRaised pricePerShare).dilutionImpact h).currentOwnership
      = (calculateOwnership ct).get h := rfl
  have e2 : ((calculateDilution ct moneyRaised pricePerShare).dilutionImpact h).postMoneyOwnership
      = (((calculateOwnership ct).get h / 100) * totalSharesAll ct)
          / (totalSharesAll ct + moneyRaised / pricePerShare) * 100 := rfl
  rw [e1] at hpos
  rw [e1, e2]
  have hT : 0 < totalSharesAll ct := by
    rcases lt_or_eq_of_le (totalSharesAll_nonneg ct hnn) with h1 | h1
    · exact h1
    · exfalso
      rw [ownership_get_eq ct h, ← h1, div_zero, zero_mul] at hpos
      exact lt_irrefl 0 hpos
  have hns : 0 < moneyRaised / pricePerShare := div_pos hm hp
  have hden : totalSharesAll ct + moneyRaised / pricePerShare ≠ 0 := by positivity
  have key : (((calculateOwnership ct).get h / 100) * totalSharesAll ct)
      / (totalSharesAll ct + moneyRaised / pricePerShare) * 100
      = (calculateOwnership ct).get h
        * (totalSharesAll ct / (totalSharesAll ct + moneyRaised / pricePerShare)) := by
    field_simp
    ring
  rw [key]
  have hlt1 : totalSharesAll ct / (totalSharesAll ct + moneyRaised / pricePerShare) < 1 :=
    (div_lt_one (by linarith)).mpr (by linarith)
  exact mul_lt_of_lt_one_right hpos hlt1

/-- C7 witness: on `ctC7` with price 1 and money 100, Alice (100% before)
is strictly diluted and the valuation identity holds. -/
theorem c7_dilution_consistency_witness :
    ((calculateDilution ctC7 100 1).dilutionImpact "Alice").postMoneyOwnership
      < ((calculateDilution ctC7 100 1).dilutionImpact "Alice").currentOwnership
  ∧ (calculateDilution ctC7 100 1).postMoney
      = (calculateDilution ctC7 100 1).preMoney + 100 :=
  ⟨(c7_dilution_consistency ctC7 100 1 (by norm_num) (by norm_num)
      (by intro r hr a ha
          simp [ctC7, baseRound, mkAlloc] at hr
          subst hr
          simp [baseRound, mkAlloc] at ha
          rcases ha with rfl | rfl <;> norm_num)).2 "Alice"
    (by simp [calculateDilution, calculateOwnership, ctC7, baseRound, mkAlloc, totalSharesAll,
          Round.allocShares, QMap.setAdd, QMap.empty]),
   (c7_dilution_consistency ctC7 100 1 (by norm_num) (by norm_num)
      (by intro r hr a ha
          simp [ctC7, baseRound, mkAlloc] at hr
          subst hr
          simp [baseRound, mkAlloc] at ha
          rcases ha with rfl | rfl <;> norm_num)).1.2.2⟩

/-! ## Claim C9 -/

/-- The rows that deposit an allocation into the bucket named `n`:
matching round name with truthy holder-name and shares cells. -/
def importFilterPred (n : String) (row : CsvRow) : Bool :=
  row.roundName == n && (row.holderName != "" && row.shares != "")

/-- Loop invariant of the import fold: bucket names are distinct and
nonempty, a bucket exists exactly for the nonempty round names seen so
far, and each bucket holds exactly the allocations of its rows in
order. -/
def ImportInv (done : List CsvRow) (acc : List ImportedRound) : Prop :=
  (acc.map ImportedRound.name).Nodup
  ∧ (∀ n, n ∈ acc.map ImportedRound.name ↔ (n ≠ "" ∧ n ∈ done.map CsvRow.roundName))
  ∧ (∀ r ∈ acc, r.allocations = (done.filter (importFilterPred r.name)).map allocationFromRow)

theorem names_after_update (acc : List ImportedRound) (row : CsvRow) :
    (acc.map (fun r => if r.name = row.roundName
        then { r with allocations := r.allocations ++ [allocationFromRow row] }
        else r)).map ImportedRound.name = acc.map ImportedRound.name := by
  rw [List.map_map]
  apply List.map_congr_left
  intro r _
  by_cases h : r.name = row.roundName <;> simp [Function.comp, h]

theorem filter_singleton_bool (p : CsvRow → Bool) (row : CsvRow) :
    [row].filter p = if p row then [row] else [] := by
  by_cases h : p row <;> simp [List.filter, h]

theorem importEnsureBucket_inv (done : List CsvRow) (acc : List ImportedRound) (row : CsvRow)
    (hnm : row.roundName ≠ "") (h : ImportInv done acc) :
    ((importEnsureBucket acc row).map ImportedRound.name).Nodup
    ∧ (∀ n, n ∈ (importEnsureBucket acc row).map ImportedRound.name ↔
        (n ≠ "" ∧ (n ∈ done.map CsvRow.roundName ∨ n = row.roundName)))
    ∧ (∀ r ∈ importEnsureBucket acc row,
        r.allocations = (done.filter (importFilterPred r.name)).map allocationFromRow) := by
  obtain ⟨hnd, hmem, halloc⟩ := h
  unfold importEnsureBucket
  by_cases hpres : row.roundName ∈ acc.map ImportedRound.name
  · have hany : acc.any (fun r => r.name == row.roundName) = true := by
      rcases List.mem_map.mp hpres with ⟨r, hr, hrn⟩
      exact List.any_eq_true.mpr ⟨r, hr, by simp [hrn]⟩
    rw [if_pos hany]
    refine ⟨hnd, ?_, halloc⟩
    intro n
    rw [hmem n]
    constructor
    · rintro ⟨hne, hd⟩
      exact ⟨hne, Or.inl hd⟩
    · rintro ⟨hne, hd | rfl⟩
      · exact ⟨hne, hd⟩
      · exact ⟨hne, ((hmem row.roundName).mp hpres).2⟩
  · have hany : ¬(acc.any (fun r => r.name == row.roundName) = true) := by
      intro hb
      rcases List.any_eq_true.mp hb with ⟨r, hr, hrn⟩
      exact hpres (List.mem_map.mpr ⟨r, hr, by simpa using hrn⟩)
    rw [if_neg hany]
    have hname : (roundFromRow row).name = row.roundName := rfl
    refine ⟨?_, ?_, ?_⟩
    · rw [List.map_append, List.map_cons, List.map_nil, hname]
      apply List.Nodup.append hnd (List.nodup_singleton _)
      intro a ha hb
      rcases List.mem_singleton.mp hb with rfl
      exact hpres ha
    · intro n
      rw [List.map_append, List.map_cons, List.map_nil, hname]
      rw [List.mem_append, List.mem_singleton]
      constructor
      · rintro (hd | rfl)
        · rcases (hmem n).mp hd with ⟨hne, hdone⟩
          exact ⟨hne, Or.inl hdone⟩
        · exact ⟨hnm, Or.inr rfl⟩
      · rintro ⟨hne, hd | rfl⟩
        · exact Or.inl ((hmem n).mpr ⟨hne, hd⟩)
        · exact Or.inr rfl
    · intro r hr
      rcases List.mem_append.mp hr with hr1 | hr1
      · exact halloc r hr1
      · rcases List.mem_singleton.mp hr1 with rfl
        have hnotdone : row.roundName ∉ done.map CsvRow.roundName := by
          intro hd
          exact hpres ((hmem row.roundName).mpr ⟨hnm, hd⟩)
        have hfe : done.filter (importFilterPred (roundFromRow row).name) = [] := by
          apply List.filter_eq_nil_iff.mpr
          intro a ha
          simp only [importFilterPred, hname, Bool.and_eq_true, beq_iff_eq, bne_iff_ne,
            not_and]
          intro h1 _
          exact absurd (List.mem_map.mpr ⟨a, ha, h1⟩) hnotdone
        rw [hfe]
        rfl

theorem importPushAlloc_inv (done : List CsvRow) (acc2 : List ImportedRound) (row : CsvRow)
    (hnd : (acc2.map ImportedRound.name).Nodup)
    (hmem2 : ∀ n, n ∈ acc2.map ImportedRound.name ↔
        (n ≠ "" ∧ (n ∈ done.map CsvRow.roundName ∨ n = row.roundName)))
    (halloc2 : ∀ r ∈ acc2,
        r.allocations = (done.filter (importFilterPred r.name)).map allocationFromRow) :
    ImportInv (done ++ [row]) (importPushAlloc acc2 row) := by
  have hd2 : ∀ n, (n ∈ done.map CsvRow.roundName ∨ n = row.roundName)
      ↔ n ∈ (done ++ [row]).map CsvRow.roundName := by
    intro n
    simp [eq_comm]
  unfold importPushAlloc
  by_cases hpush : row.holderName ≠ "" ∧ row.shares ≠ ""
  · rw [if_pos hpush]
    refine ⟨?_, ?_, ?_⟩
    · rw [names_after_update]
      exact hnd
    · intro n
      rw [names_after_update, hmem2 n, hd2 n]
    · intro r2 hr2
      rcases List.mem_map.mp hr2 with ⟨r1, hr1, hr2eq⟩
      rw [← hr2eq]
      by_cases hname : r1.name = row.roundName
      · rw [if_pos hname]
        have hpr : importFilterPred r1.name row = true := by
          simp [importFilterPred, hname, hpush.1, hpush.2]
        simp only [halloc2 r1 hr1, List.filter_append, filter_singleton_bool, hpr,
          if_true, List.map_append]
        rfl
      · rw [if_neg hname]
        have hpr : importFilterPred r1.name row = false := by
          have h1 : (row.roundName == r1.name) = false :=
            beq_eq_false_iff_ne.mpr (fun hh => hname hh.symm)
          simp [importFilterPred, h1]
        rw [halloc2 r1 hr1, List.filter_append, filter_singleton_bool, hpr]
        simp
  · rw [if_neg hpush]
    refine ⟨hnd, ?_, ?_⟩
    · intro n
      rw [hmem2 n, hd2 n]
    · intro r hr
      have hpr : importFilterPred r.name row = false := by
        rcases not_and_or.mp hpush with h1 | h1
        · simp [importFilterPred, not_ne_iff.mp h1]
        · simp [importFilterPred, not_ne_iff.mp h1]
      rw [halloc2 r hr, List.filter_append, filter_singleton_bool, hpr]
      simp

theorem importStep_inv (done : List CsvRow) (acc : List ImportedRound) (row : CsvRow)
    (h : ImportInv done acc) : ImportInv (done ++ [row]) (importStep acc row) := by
  unfold importStep
  by_cases hnm : row.roundName = ""
  · rw [if_pos hnm]
    obtain ⟨hnd, hmem, halloc⟩ := h
    have hn0 : ∀ r ∈ acc, r.name ≠ "" :=
      fun r hr => ((hmem r.name).mp (List.mem_map_of_mem ImportedRound.name hr)).1
    refine ⟨hnd, ?_, ?_⟩
    · intro n
      rw [hmem n]
      rw [List.map_append, List.map_cons, List.map_nil, List.mem_append, List.mem_singleton]
      constructor
      · rintro ⟨hne, hd⟩
        exact ⟨hne, Or.inl hd⟩
      · rintro ⟨hne, hd | rfl⟩
        · exact ⟨hne, hd⟩
        · exact absurd hnm hne
    · intro r hr
      rw [halloc r hr, List.filter_append, filter_singleton_bool]
      have hpr : importFilterPred r.name row = false := by
        have h1 : (row.roundName == r.name) = false :=
          beq_eq_false_iff_ne.mpr (hnm ▸ Ne.symm (hn0 r hr))
        simp [importFilterPred, h1]
      rw [hpr]
      simp
  · rw [if_neg hnm]
    obtain ⟨h1, h2, h3⟩ := importEnsureBucket_inv done acc row hnm h
    exact importPushAlloc_inv done (importEnsureBucket acc row) row h1 h2 h3

theorem importRows_inv_aux (rows : List CsvRow) : ∀ (done : List CsvRow)
    (acc : List ImportedRound), ImportInv done acc →
    ImportInv (done ++ rows) (rows.foldl importStep acc) := by
  induction rows with
  | nil =>
    intro done acc h
    simpa using h
  | cons row rows ih =>
    intro done acc h
    have h2 := importStep_inv done acc row h
    have h3 := ih (done ++ [row]) (importStep acc row) h2
    simpa using h3

theorem importRows_inv (rows : List CsvRow) : ImportInv rows (importRows rows) := by
  have h0 : ImportInv [] [] := ⟨List.nodup_nil, by simp, by simp⟩
  have := importRows_inv_aux rows [] [] h0
  simpa [importRows] using this

/-- C9: the import loop groups rows by round name: bucket names are
pairwise distinct (exactly one round per distinct name), a bucket exists
exactly for each nonempty round name occurring among the rows — adjacent
or not — and each bucket accumulates, in row order, the allocations of
ALL rows bearing its name whose holder and shares cells are truthy. -/
theorem c9_import_groups_by_round_name (rows : List CsvRow) :
    ((importRows rows).map ImportedRound.name).Nodup
  ∧ (∀ n, (∃ r ∈ importRows rows, r.name = n)
      ↔ (n ≠ "" ∧ ∃ row ∈ rows, row.roundName = n))
  ∧ (∀ r ∈ importRows rows,
      r.allocations = (rows.filter (importFilterPred r.name)).map allocationFromRow) := by
  obtain ⟨h1, h2, h3⟩ := importRows_inv rows
  refine ⟨h1, ?_, h3⟩
  intro n
  have := h2 n
  simpa [List.mem_map] using this

/-- C9 witness: two non-adjacent "Common" rows around a "Pool" row yield
exactly the two buckets, and the "Common" bucket holds both allocations
(F1 then F2) in row order. -/
theorem c9_import_groups_witness :
    ((importRows rowsC9).map ImportedRound.name).Nodup
  ∧ (∃ r ∈ importRows rowsC9, r.name = "Common")
  ∧ (∀ r ∈ importRows rowsC9,
      r.allocations = (rowsC9.filter (importFilterPred r.name)).map allocationFromRow) :=
  ⟨(c9_import_groups_by_round_name rowsC9).1,
   ((c9_import_groups_by_round_name rowsC9).2.1 "Common").mpr
     (by refine ⟨by decide, ?_⟩
         exact ⟨⟨"Common", "priced", "", "", "", "", "", "2020-01-01", "#111", "F1", "100",
           "", "common", "", ""⟩, by simp [rowsC9], rfl⟩),
   (c9_import_groups_by_round_name rowsC9).2.2⟩

/-! ## Claim C10 -/

theorem truthyQ_eq_true (o : Option ℚ) : truthyQ o = true ↔ ∃ v, o = some v ∧ v ≠ 0 := by
  cases o <;> simp [truthyQ]

/-- C10: `convertSAFEs` returns one output round per input round, in
order; every round that is not a SAFE or has no valuation cap passes
through completely unchanged (all fields and allocations); and a round
that changes at all is necessarily a SAFE with a truthy valuation
cap. -/
theorem c10_convert_safes_frame (ct : CapTable) (pm price : ℚ) :
    (convertSAFEs ct pm price).updatedRounds.length = ct.rounds.length
  ∧ (∀ i (hi : i < ct.rounds.length) (hi2 : i < (convertSAFEs ct pm price).updatedRounds.length),
      (ct.rounds[i].type ≠ "safe" ∨ ct.rounds[i].valuationCap = none) →
        (convertSAFEs ct pm price).updatedRounds[i] = ct.rounds[i])
  ∧ (∀ i (hi : i < ct.rounds.length) (hi2 : i < (convertSAFEs ct pm price).updatedRounds.length),
      (convertSAFEs ct pm price).updatedRounds[i] ≠ ct.rounds[i] →
        ct.rounds[i].type = "safe" ∧ ∃ c, ct.rounds[i].valuationCap = some c ∧ c ≠ 0) := by
  have hmap : (convertSAFEs ct pm price).updatedRounds
      = ct.rounds.map (convertRound ct price) := rfl
  refine ⟨by rw [hmap, List.length_map], ?_, ?_⟩
  · intro i hi hi2 hcond
    have hsf : safeConverts ct.rounds[i] = false := by
      rcases hcond with hna | hnc
      · simp [safeConverts, hna]
      · simp [safeConverts, truthyQ, hnc]
    simp only [hmap, List.getElem_map]
    simp [convertRound, hsf]
  · intro i hi hi2 hne
    by_cases hs : safeConverts ct.rounds[i] = true
    · have hs2 : ct.rounds[i].type = "safe" ∧ ∃ v, ct.rounds[i].valuationCap = some v ∧ v ≠ 0 := by
        simpa [safeConverts, truthyQ_eq_true] using hs
      exact hs2
    · exfalso
      apply hne
      simp only [hmap, List.getElem_map]
      simp [convertRound, hs]

/-- C10 witness: on `ctC10` (priced, pool, capless SAFE, capped SAFE) the
length is preserved and the priced and pool rounds pass through
unchanged. -/
theorem c10_convert_safes_frame_witness :
    (convertSAFEs ctC10 0 1).updatedRounds.length = ctC10.rounds.length
  ∧ (convertSAFEs ctC10 0 1).updatedRounds.get ⟨0, by simp [convertSAFEs, ctC10]⟩
      = ctC10.rounds.get ⟨0, by simp [ctC10]⟩
  ∧ (convertSAFEs ctC10 0 1).updatedRounds.get ⟨1, by simp [convertSAFEs, ctC10]⟩
      = ctC10.rounds.get ⟨1, by simp [ctC10]⟩ :=
  ⟨(c10_convert_safes_frame ctC10 0 1).1,
   (c10_convert_safes_frame ctC10 0 1).2.1 0 (by simp [ctC10]) (by simp [convertSAFEs, ctC10])
     (by left; simp [ctC10, baseRound]),
   (c10_convert_safes_frame ctC10 0 1).2.1 1 (by simp [ctC10]) (by simp [convertSAFEs, ctC10])
     (by left; simp [ctC10, baseRound])⟩

end CapTableV
